import Mathlib

/-!
Shallow embedding of `src/ex33_save_editor.py` (EX33 Save Editor, Linux port).

Modelling conventions:
* Python strings are `List Char` (`Str` below); Lean string literals are
  converted with `chars`.
* Python dicts that the program reads by a fixed key are modelled as
  structures; the `root.properties` dict of a save document is an ordered
  association list; a dict used as a mutable table (the category index) is
  modelled as its lookup function with `[]` as the default for absent keys.
* The file system is a pair of partial maps (`files`, `dirs`); paths are flat
  names (the editor only ever joins the fixed `Save_Backup` directory in
  front of a base name, which `joinBackup` reproduces).
* Fallible Python operations return `Option`/`Except`; an uncaught Python
  exception is an explicit `crash…` constructor of the result type.
* The external `uesave` converter process is an input of the functions that
  invoke it: `ConvProc.notFound` is the `FileNotFoundError` raised by
  `subprocess.run`, and `ConvProc.runs r out` is a completed process with
  exit code / captured streams `r` that left `out` at the output path.
* Wall-clock readings (`time.strftime`) are passed in as arguments (`now`,
  or a broken-down time `Tm` for `get_timestamp`).
-/

namespace EX33

/-- Python strings, modelled as their list of characters. -/
abbrev Str := List Char

/-- The character list of a Lean string literal. -/
def chars (s : String) : Str := s.data

/-- The whitespace characters recognised by Python `str.strip()` (ASCII range). -/
def isPySpace (c : Char) : Bool :=
  c = ' ' || c = '\t' || c = '\n' || c = '\x0b' || c = '\x0c' || c = '\r'

/-- Python `s.strip()`: remove leading and trailing whitespace. -/
def pyStrip (s : Str) : Str :=
  ((s.dropWhile isPySpace).reverse.dropWhile isPySpace).reverse

/-- Value of a nonempty all-decimal-digit string, else `none`. -/
def digitsVal? (s : Str) : Option Nat :=
  if s.isEmpty then none
  else
    s.foldl (fun acc c =>
      match acc with
      | none => none
      | some n => if c.isDigit then some (n * 10 + (c.toNat - 48)) else none)
      (some 0)

/-- Python `int(s)` for decimal strings: surrounding whitespace is allowed, an
optional single sign, then decimal digits; `none` models the `ValueError`.
(Digit-group underscores, an unused corner of `int`, are not modelled.) -/
def pyInt? (s : Str) : Option Int :=
  let t := pyStrip s
  match t with
  | '-' :: u => (digitsVal? u).map (fun n => -(n : Int))
  | '+' :: u => (digitsVal? u).map (fun n => (n : Int))
  | _ => (digitsVal? t).map (fun n => (n : Int))

/-- Python `s.split(" ", 1)`: the part before the first space, and the rest
after it when a space exists (`none` when the list has length 1). -/
def splitSpace1 : Str → Str × Option Str
  | [] => ([], none)
  | c :: t =>
    if c = ' ' then ([], some t)
    else
      let p := splitSpace1 t
      (c :: p.1, p.2)

/-- Python `s.split(".", 1)` in the branch where `"." in s` holds: the part
before the first dot and everything after it. -/
def splitDot1 : Str → Str × Str
  | [] => ([], [])
  | c :: t =>
    if c = '.' then ([], t)
    else
      let p := splitDot1 t
      (c :: p.1, p.2)

/-- Python `s.lower()` (per-character; the catalog names are ASCII). -/
def lowerStr (s : Str) : Str := s.map Char.toLower

/-- Python substring test `needle in hay`. -/
def strInfix (needle : Str) : Str → Bool
  | [] => needle.isEmpty
  | c :: t => needle.isPrefixOf (c :: t) || strInfix needle t

/-- Python `s.replace(".sav", r)` (also used for the needle `".json"` target of
`load_sav`): replace every non-overlapping occurrence of `".sav"`, scanning
left to right.  On a match four characters are consumed (written with a nested
match so the recursion stays structural; the inner fallback is unreachable
because a successful prefix match guarantees three more characters). -/
def replaceDotSav (s r : Str) : Str :=
  match s with
  | [] => []
  | c :: t =>
    if (chars ".sav").isPrefixOf (c :: t) then
      match t with
      | _ :: _ :: _ :: u => r ++ replaceDotSav u r
      | _ => r
    else c :: replaceDotSav t r

/-- Whether `".sav"` occurs in `s` (the condition under which `str.replace`
actually rewrites something). -/
def occursSav : Str → Bool
  | [] => false
  | c :: t => (chars ".sav").isPrefixOf (c :: t) || occursSav t

/-! ### The save-document entry index (source lines 435-453) -/

/-- One inventory `Map` entry `{"key": {"Name": …}, "value": {"Int": …}}`. -/
structure Entry where
  name : Str
  int : Int
  deriving DecidableEq, Repr

/-- `get_value_from_json` (source lines 435-439): first-match scan over the
loaded entries; the `""` sentinel for an absent key is modelled as `none`. -/
def get_value_from_json (loaded : List Entry) (keyName : Str) : Option Int :=
  match loaded with
  | [] => none
  | e :: t => if e.name = keyName then some e.int else get_value_from_json t keyName

/-- `set_value_in_json` (source lines 441-453): update the first entry whose
`key.Name` matches in place, else append a fresh entry at the end.  (The
`json_text.see` scrolling on lines 446-453 is presentation only.) -/
def set_value_in_json (loaded : List Entry) (keyName : Str) (newValue : Int) :
    List Entry :=
  match loaded with
  | [] => [⟨keyName, newValue⟩]
  | e :: t =>
    if e.name = keyName then { e with int := newValue } :: t
    else e :: set_value_in_json t keyName newValue

/-! ### The catalog (mapping file) and its validation (source lines 206-263) -/

/-- One catalog item of `ex33_mapping_full.yaml`:
`{name, save_key, category, quantity?}`. -/
structure Item where
  name : Str
  save_key : Str
  category : Str
  quantity : Option Int := none
  deriving DecidableEq, Repr

/-- The `invalid_items` computation of `validate_categories` (source line 211):
every item whose `category` does not contain a dot.  (The surrounding log
write, dialog, in-place repair and re-exec are modelled separately by
`repair_items`.) -/
def validate_categories (items : List Item) : List Item :=
  items.filter (fun i => decide (('.' : Char) ∉ i.category))

/-- The repair loop of `validate_categories` (source lines 225-226): append
`".Default"` to the category of every invalid item, leaving valid items
untouched (the source mutates exactly the members of `invalid_items` inside
the shared list). -/
def repair_items (items : List Item) : List Item :=
  items.map (fun i =>
    if ('.' : Char) ∈ i.category then i
    else { i with category := i.category ++ chars ".Default" })

/-- `structured.setdefault(main, set()).add(sub)` (source line 262): the dict
is its lookup function, the set is a duplicate-free list (insert only if
absent; the final `sorted` erases the set's internal order). -/
def addSub (acc : Str → List Str) (m s : Str) : Str → List Str :=
  fun k => if k = m then (if s ∈ acc m then acc m else acc m ++ [s]) else acc k

/-- One iteration of the grouping loop of `get_structured_categories`
(source lines 259-262): an item whose category contains a dot is split at
the first dot and its subcategory added to its main category's set. -/
def structuredStep (acc : Str → List Str) (i : Item) : Str → List Str :=
  if ('.' : Char) ∈ i.category then
    addSub acc (splitDot1 i.category).1 (splitDot1 i.category).2
  else acc

/-- The grouping loop of `get_structured_categories` (source lines 258-262)
over all items, starting from the empty dict. -/
def structuredSets (items : List Item) : Str → List Str :=
  items.foldl structuredStep (fun _ => [])

/-- `get_structured_categories` (source lines 250-263): each main category's
set of subcategories, sorted ascending (`{k: sorted(v) for k, v in …}`). -/
def get_structured_categories (items : List Item) : Str → List Str :=
  fun main => List.insertionSort (· ≤ ·) (structuredSets items main)

/-! ### The master-list patch pass (source lines 32-69) -/

/-- The match test of the patch pass (source line 54):
`item_name.lower() in item.get("name", "").lower()`. -/
def nameMatch (itemName : Str) (i : Item) : Bool :=
  strInfix (lowerStr itemName) (lowerStr i.name)

/-- The inner scan of the patch pass (source lines 53-57): first
case-insensitive substring match gets its `quantity` set, then `break`. -/
def applyMatch : List Item → Str → Int → List Item
  | [], _, _ => []
  | i :: t, nm, q =>
    if nameMatch nm i then { i with quantity := some q } :: t
    else i :: applyMatch t nm q

/-- Processing of one master-list line (source lines 47-59): strip, split at
the first space; lines without a space, or whose first part is not an integer
(`ValueError`), leave the catalog unchanged (the source just prints a skip
message). -/
def patchLine (items : List Item) (line : Str) : List Item :=
  let parts := splitSpace1 (pyStrip line)
  match parts.2 with
  | none => items
  | some rest =>
    match pyInt? parts.1 with
    | none => items
    | some q => applyMatch items (pyStrip rest) q

/-- `patch_yaml_with_master` (source lines 32-69), as the pure transformation
of the catalog items by the master-list lines, in file order.  (The file I/O
around it reads the two inputs and writes the result back.) -/
def patch_yaml_with_master (items : List Item) (masterLines : List Str) :
    List Item :=
  masterLines.foldl patchLine items

/-! ### Catalog loading (source lines 234-248) -/

/-- A parsed mapping file: a YAML mapping whose `items` key is optional
(`mapping.get("items", [])` supplies the default). -/
structure MappingData where
  items : Option (List Item)
  deriving DecidableEq, Repr

/-- A `yaml.YAMLError` raised by `yaml.safe_load`. -/
structure YamlErr where
  msg : Str
  deriving DecidableEq, Repr

/-- `load_mapping` (source lines 234-248): return the parsed mapping, or the
empty dict `{}` when `yaml.safe_load` raised — the source comment reads
"Return empty dict on error to prevent crashing". -/
def load_mapping (parsed : Except YamlErr MappingData) : MappingData :=
  match parsed with
  | .ok m => m
  | .error _ => ⟨none⟩

/-- `self.items = self.mapping.get("items", [])` (source line 146). -/
def mappingItems (m : MappingData) : List Item := m.items.getD []

/-- The catalog the session starts with (source lines 145-146): the startup
path is total — it produces a (possibly empty) item list for every parse
result. -/
def session_startup_items (parsed : Except YamlErr MappingData) : List Item :=
  mappingItems (load_mapping parsed)

/-! ### The structured save document and the file system -/

/-- The payload found under the `"Map"` key of a property: a list of entries
in every document read from disk; a bare string is what source line 535
assigns in memory (see `broadcast_line535`). -/
inductive JPayload where
  | entries (l : List Entry)
  | strVal (s : Str)
  deriving DecidableEq, Repr

/-- A property value of `root.properties`: a dict containing a `"Map"` key,
or anything else (`isinstance(v, dict) and "Map" in v` fails). -/
inductive PropVal where
  | mapDict (payload : JPayload)
  | other
  deriving DecidableEq, Repr

/-- A structured save document `{"root": {"properties": {…}}}`; the
properties dict is an ordered association list. -/
structure Doc where
  props : List (Str × PropVal)
  deriving DecidableEq, Repr

/-- The inventory-property test of source lines 491 / 510 / 534:
`k.startswith("InventoryItems_") and isinstance(v, dict) and "Map" in v`. -/
def isInventoryProp (k : Str) (v : PropVal) : Bool :=
  (chars "InventoryItems_").isPrefixOf k &&
    match v with
    | .mapDict _ => true
    | .other => false

/-- The aggregation loop of `load_sav`/`load_json` (source lines 488-493):
`maps.extend(v["Map"])` over every inventory property, preserving property
order and in-property order.  Documents read from disk carry list payloads;
a string payload (producible in memory only by the line-535 defect) is never
re-indexed on any path the program takes, and contributes nothing here. -/
def index_inventory (d : Doc) : List Entry :=
  d.props.foldl
    (fun maps kv =>
      match kv.2 with
      | .mapDict (.entries l) =>
        if (chars "InventoryItems_").isPrefixOf kv.1 then maps ++ l else maps
      | _ => maps)
    []

/-- Contents of a file: a parsed structured document, or opaque bytes. -/
inductive FileData where
  | jsonDoc (d : Doc)
  | bin (tag : Nat)
  deriving DecidableEq, Repr

/-- The file system: file contents by path, and which directories exist. -/
structure FS where
  files : Str → Option FileData
  dirs : Str → Bool

/-- `os.makedirs(dir, exist_ok=True)`. -/
def FS.mkdirP (fs : FS) (dir : Str) : FS :=
  { fs with dirs := fun x => if x = dir then true else fs.dirs x }

/-- Writing (or copying) a file. -/
def FS.write (fs : FS) (path : Str) (d : FileData) : FS :=
  { fs with files := fun x => if x = path then some d else fs.files x }

/-! ### Committing edits: `save_json` (source lines 518-547) -/

/-- One iteration of the commit loop (source lines 523-531): strip the
field's text; a blank field does nothing at all; otherwise `int(val)`
(`.error kv` models the uncaught `ValueError`) and the same
update-first-match-or-append walk as `set_value_in_json`. -/
def save_edit_step (entries : List Entry) (kv : Str × Str) :
    Except (Str × Str) (List Entry) :=
  let val := pyStrip kv.2
  if val = [] then .ok entries
  else
    match pyInt? val with
    | none => .error kv
    | some n => .ok (set_value_in_json entries kv.1 n)

/-- The commit loop over `self.input_vars` in insertion order; a `ValueError`
aborts `save_json` with the entries edited so far. -/
def apply_edits : List (Str × Str) → List Entry → List Entry × Option (Str × Str)
  | [], entries => (entries, none)
  | kv :: t, entries =>
    match save_edit_step entries kv with
    | .ok entries2 => apply_edits t entries2
    | .error e => (entries, some e)

/-- Source line 535 exactly as written:
`v["Map"] = self.loaded_jsontimestamp = get_timestamp()` — two intended
statements merged into one chained assignment, so every inventory property's
`Map` payload is assigned the timestamp STRING, not the edited entry list. -/
def broadcast_line535 (d : Doc) (now : Str) : Doc :=
  ⟨d.props.map (fun kv =>
    if isInventoryProp kv.1 kv.2 then (kv.1, .mapDict (.strVal now)) else kv)⟩

/-- How `save_json` ends.  `crashNameError` is the uncaught `NameError` of
source line 537: the name `timestamp` is bound nowhere (line 535 assigned
`self.loaded_jsontimestamp` instead), so the f-string computing the backup
name raises before any backup or write happens. -/
inductive SaveResult where
  | errorNoJson
  | crashValueError (key val : Str)
  | crashNameError
  deriving DecidableEq, Repr

/-- Result of a `save_json` call: how it ended, the in-memory document and
entry index it left behind, and the file system afterwards. -/
structure SaveOutcome where
  result : SaveResult
  fullJson : Doc
  loadedJson : List Entry
  fs : FS

/-- `save_json` (source lines 518-547) as written: guard on a loaded path
(line 519), apply the field edits (523-531), run the line 533-535 loop whose
merged line 535 clobbers every inventory `Map` with the timestamp string,
create the backup directory (536), then raise `NameError` at line 537 — the
backup copy, the document write and the success dialog (538-547) are
unreachable. -/
def save_json (currentJsonPath : Option Str) (fullJson : Doc)
    (loadedJson : List Entry) (inputVars : List (Str × Str)) (now : Str)
    (fs : FS) : SaveOutcome :=
  match currentJsonPath with
  | none => ⟨.errorNoJson, fullJson, loadedJson, fs⟩
  | some _ =>
    match apply_edits inputVars loadedJson with
    | (lj, some kv) => ⟨.crashValueError kv.1 kv.2, fullJson, lj, fs⟩
    | (lj, none) =>
      ⟨.crashNameError, broadcast_line535 fullJson now, lj,
        fs.mkdirP (chars "Save_Backup")⟩

/-! ### The converter gateway: `load_sav` and `export_sav` -/

/-- A completed `subprocess.run`: exit status and captured streams. -/
structure RunResult where
  exitCode : Int
  stdout : Str
  stderr : Str
  deriving DecidableEq, Repr

/-- The external converter invocation: the executable is missing
(`FileNotFoundError`), or the process ran with result `r`, leaving `out` at
its output path (`none` when it wrote nothing, e.g. after a failure). -/
inductive ConvProc where
  | notFound
  | runs (r : RunResult) (outWrite : Option FileData)
  deriving DecidableEq, Repr

/-- `os.path.join("Save_Backup", nm)`. -/
def joinBackup (nm : Str) : Str := chars "Save_Backup/" ++ nm

/-- The backup destination of source lines 474 / 537:
`basename.replace(".sav", "_BACKUP-" + timestamp + ".sav")` inside the backup
directory. -/
def backup_sav_name (base ts : Str) : Str :=
  joinBackup (replaceDotSav base (chars "_BACKUP-" ++ ts ++ chars ".sav"))

/-- How `load_sav` ends. -/
inductive LoadResult where
  | cancelled
  | crashBackupCopy
  | errorUesaveNotFound
  | crashJsonOpen
  | crashJsonParse
  | loaded (maps : List Entry) (d : Doc)
  deriving DecidableEq, Repr

/-- `load_sav` (source lines 466-497): dialog (cancel allowed), create the
backup directory, copy the container into it (an absent source is an
uncaught `FileNotFoundError`), run the converter — `FileNotFoundError` on a
missing executable is caught and reported, but the exit status of a
completed run is never consulted — then open and parse the output document
and aggregate its inventory properties. -/
def load_sav (savPath : Option Str) (now : Str) (conv : ConvProc) (fs : FS) :
    LoadResult × FS :=
  match savPath with
  | none => (.cancelled, fs)
  | some p =>
    let fs1 := fs.mkdirP (chars "Save_Backup")
    match fs1.files p with
    | none => (.crashBackupCopy, fs1)
    | some content =>
      let fs2 := fs1.write (backup_sav_name p now) content
      match conv with
      | .notFound => (.errorUesaveNotFound, fs2)
      | .runs _ outWrite =>
        let jsonPath := replaceDotSav p (chars ".json")
        let fs3 :=
          match outWrite with
          | some fd => fs2.write jsonPath fd
          | none => fs2
        match fs3.files jsonPath with
        | none => (.crashJsonOpen, fs3)
        | some (.bin _) => (.crashJsonParse, fs3)
        | some (.jsonDoc d) => (.loaded (index_inventory d) d, fs3)

/-- How `export_sav` ends.  `doneSuccess` prints the captured streams and
shows the "Save file exported successfully." dialog. -/
inductive ExportResult where
  | errorNoJson
  | errorUesaveNotFound
  | doneSuccess (stdout stderr : Str)
  deriving DecidableEq, Repr

/-- `export_sav` (source lines 549-565): guard on a loaded path, run the
converter; a missing executable is reported, but a completed run — whatever
its exit status — prints stdout/stderr and reports success. -/
def export_sav (currentJsonPath : Option Str) (conv : ConvProc) : ExportResult :=
  match currentJsonPath with
  | none => .errorNoJson
  | some _ =>
    match conv with
    | .notFound => .errorUesaveNotFound
    | .runs r _ => .doneSuccess r.stdout r.stderr

/-! ### Timestamps (source lines 22-29) -/

/-- A broken-down local time, the input of `time.strftime`. -/
structure Tm where
  year : Nat
  month : Nat
  day : Nat
  hour : Nat
  minute : Nat
  second : Nat
  deriving DecidableEq, Repr

/-- Two zero-padded decimal digits (faithful to `strftime` for `n < 100`). -/
def pad2 (n : Nat) : Str := [Nat.digitChar (n / 10), Nat.digitChar (n % 10)]

/-- Four decimal digits (faithful to `strftime` `%Y` for four-digit years). -/
def pad4 (n : Nat) : Str :=
  [Nat.digitChar (n / 1000), Nat.digitChar (n / 100 % 10),
    Nat.digitChar (n / 10 % 10), Nat.digitChar (n % 10)]

/-- `get_timestamp` (source lines 22-29): `time.strftime("%Y%m%d-%H%M%S")`
applied to the broken-down time `t`. -/
def get_timestamp (t : Tm) : Str :=
  pad4 t.year ++ pad2 t.month ++ pad2 t.day ++ ['-'] ++ pad2 t.hour ++
    pad2 t.minute ++ pad2 t.second

/-- The field ranges under which the `strftime` format is faithful (real
calendar values lie far inside them). -/
abbrev validTm (t : Tm) : Prop :=
  1000 ≤ t.year ∧ t.year < 10000 ∧ t.month < 100 ∧ t.day < 100 ∧
    t.hour < 100 ∧ t.minute < 100 ∧ t.second < 100

/-! ### Concrete inputs used by witnesses and counterexamples -/

/-- A representative parse error raised on a structurally invalid mapping. -/
def yamlErrEx : YamlErr := ⟨chars "while parsing a block mapping: expected key"⟩

/-- A converter run that exited with status 1 and an error on stderr. -/
def runFail : RunResult := ⟨1, chars "", chars "error: invalid save header"⟩

/-- A catalog item for the master-list example. -/
def hpItem : Item :=
  { name := chars "Health Potion", save_key := chars "HP",
    category := chars "Consumables.Potions" }

/-- A catalog item whose category lacks the dotted separator. -/
def badCatItem : Item :=
  { name := chars "Lumina", save_key := chars "LuminaPoints",
    category := chars "Stats" }

/-- One well-formed inventory entry. -/
def goldEntry : Entry := ⟨chars "Gold", 5⟩

/-- A loaded document with one inventory property and one other property. -/
def docEx : Doc :=
  ⟨[(chars "InventoryItems_0", .mapDict (.entries [goldEntry])),
    (chars "SaveSlotName_0", .other)]⟩

/-- A fixed timestamp string, `get_timestamp ⟨2026, 1, 1, 0, 0, 0⟩`. -/
def tsEx : Str := chars "20260101-000000"

/-- A file system holding only the live document file `save.json`. -/
def fsEx : FS :=
  ⟨fun x => if x = chars "save.json" then some (.jsonDoc docEx) else none,
    fun _ => false⟩

/-- An empty file system. -/
def fsEmpty : FS := ⟨fun _ => none, fun _ => false⟩

/-- The commit of a single edit (`Gold` set to `7`) on `docEx`. -/
def saveOutEx : SaveOutcome :=
  save_json (some (chars "save.json")) docEx [goldEntry]
    [(chars "Gold", chars "7")] tsEx fsEx

/-- A broken-down time. -/
def tmA : Tm := ⟨2026, 10, 12, 9, 30, 0⟩

/-- A broken-down time two seconds after `tmA`. -/
def tmB : Tm := ⟨2026, 10, 12, 9, 30, 2⟩

/-! ## Theorems -/

/-- C4: `set` followed by `get` observes the written value, for any index,
key and integer: `set_value_in_json` updates the first entry whose `key.Name`
matches in place when one exists, otherwise appends `⟨key, v⟩` at the end,
and the first-match scan of `get_value_from_json` then returns `v`. -/
theorem c4_set_get_roundtrip (entries : List Entry) (keyName : Str) (v : Int) :
    get_value_from_json (set_value_in_json entries keyName v) keyName = some v
  ∧ (∀ pre e post, (∀ j ∈ pre, j.name ≠ keyName) → e.name = keyName →
      set_value_in_json (pre ++ e :: post) keyName v =
        pre ++ { e with int := v } :: post)
  ∧ ((∀ e ∈ entries, e.name ≠ keyName) →
      set_value_in_json entries keyName v = entries ++ [⟨keyName, v⟩]) := by
  refine ⟨?_, ?_, ?_⟩
  · induction entries with
    | nil => simp [set_value_in_json, get_value_from_json]
    | cons e t ih =>
      by_cases h : e.name = keyName
      · simp [set_value_in_json, get_value_from_json, h]
      · simp [set_value_in_json, get_value_from_json, h, ih]
  · intro pre e post hpre he
    induction pre with
    | nil => simp [set_value_in_json, he]
    | cons j t ih =>
      have hj : j.name ≠ keyName := hpre j (by simp)
      simp only [List.cons_append, set_value_in_json, if_neg hj]
      exact congrArg _ (ih fun x hx => hpre x (by simp [hx]))
  · intro hall
    induction entries with
    | nil => simp [set_value_in_json]
    | cons e t ih =>
      have he : e.name ≠ keyName := hall e (by simp)
      simp only [set_value_in_json, if_neg he, List.cons_append]
      exact congrArg _ (ih fun x hx => hall x (by simp [hx]))

/-- C10: a tracked input field whose text is empty or whitespace-only after
stripping makes no change to the entry index during commit — the loop body
is the identity on the entries for that field, so no existing entry is
updated and nothing is appended; a whole commit of only blank fields leaves
the index untouched. -/
theorem c10_blank_fields_skipped :
    (∀ entries keyName val, pyStrip val = [] →
        save_edit_step entries (keyName, val) = Except.ok entries)
  ∧ (∀ edits entries, (∀ kv ∈ edits, pyStrip kv.2 = []) →
        apply_edits edits entries = (entries, none)) := by
  have hstep : ∀ entries keyName val, pyStrip val = [] →
      save_edit_step entries (keyName, val) = Except.ok entries := by
    intro entries keyName val h
    simp [save_edit_step, h]
  refine ⟨hstep, ?_⟩
  intro edits
  induction edits with
  | nil => intro entries _; rfl
  | cons kv t ih =>
    intro entries hall
    have h1 : save_edit_step entries kv = Except.ok entries :=
      hstep entries kv.1 kv.2 (hall kv (by simp))
    simp only [apply_edits, h1]
    exact ih entries fun x hx => hall x (by simp [hx])

/-- C10 witness: a blank and a whitespace-only field leave a concrete
one-entry index unchanged. -/
theorem c10_blank_fields_skipped_witness :
    save_edit_step [goldEntry] (chars "Gold", chars "   ") =
      Except.ok [goldEntry]
  ∧ apply_edits [(chars "Gold", chars ""), (chars "HP", chars " ")] [goldEntry] =
      ([goldEntry], none) := by
  refine ⟨?_, ?_⟩
  · exact c10_blank_fields_skipped.1 [goldEntry] (chars "Gold") (chars "   ")
      (by decide)
  · exact c10_blank_fields_skipped.2 [(chars "Gold", chars ""), (chars "HP", chars " ")]
      [goldEntry] (by decide)

/-- C3 counterexample: a structurally invalid mapping source is NOT fatal —
`load_mapping` catches the `yaml.YAMLError`, returns the empty dict, and the
session proceeds: it starts with an empty catalog, validation passes, and
the category index the UI is built from is empty. -/
theorem c3_counterexample :
    load_mapping (Except.error yamlErrEx) = ⟨none⟩
  ∧ session_startup_items (Except.error yamlErrEx) = []
  ∧ validate_categories (session_startup_items (Except.error yamlErrEx)) = []
  ∧ get_structured_categories (session_startup_items (Except.error yamlErrEx))
      (chars "Weapons") = [] := ⟨rfl, rfl, rfl, rfl⟩

/-- C3 amended: on every structurally invalid catalog source, `load_mapping`
returns the empty mapping instead of failing; session startup is total and
proceeds to build its UI with an empty catalog (`items = []`). -/
theorem c3_amended (e : YamlErr) :
    load_mapping (Except.error e) = ⟨none⟩
  ∧ session_startup_items (Except.error e) = []
  ∧ validate_categories (session_startup_items (Except.error e)) = [] :=
  ⟨rfl, rfl, rfl⟩

/-- C2 counterexample: the converter ran and exited with status 1, yet
`export_sav` proceeds as if the conversion succeeded — it prints the captured
streams and shows the "exported successfully" dialog; no `ConversionFailed`
outcome exists anywhere in the code. -/
theorem c2_counterexample :
    export_sav (some (chars "save.json")) (ConvProc.runs runFail none) =
      ExportResult.doneSuccess (chars "") (chars "error: invalid save header") :=
  rfl

/-- C2 amended: the exit status of a completed converter run is never
consulted: `export_sav` reports success with the captured stdout/stderr for
every completed run, and `load_sav` proceeds to open and load whatever
document the run left at the output path, as if the conversion had
succeeded. -/
theorem c2_amended :
    (∀ p r outW, export_sav (some p) (ConvProc.runs r outW) =
        ExportResult.doneSuccess r.stdout r.stderr)
  ∧ (∀ p now r d fs content, fs.files p = some content →
      (load_sav (some p) now (ConvProc.runs r (some (FileData.jsonDoc d))) fs).1 =
        LoadResult.loaded (index_inventory d) d) := by
  refine ⟨fun p r outW => rfl, ?_⟩
  intro p now r d fs content h
  have h1 : (fs.mkdirP (chars "Save_Backup")).files p = some content := h
  simp [load_sav, h1, FS.write]

/-- C6: the master-list patch scans catalog definitions in original order
and, on the first case-insensitive substring match of the entry's name
inside a definition's name, sets that definition's `quantity` to the line's
integer and stops (later definitions are untouched); a catalog with no match
is unchanged; the item named `Health Potion` gets quantity 5 from the line
`5 Health Potion`; and a malformed line `Potion` (no leading integer) is
skipped without effect or error. -/
theorem c6_patch_with_master_list :
    (∀ items nm q, (∀ i ∈ items, nameMatch nm i = false) →
        applyMatch items nm q = items)
  ∧ (∀ pre i post nm q, (∀ j ∈ pre, nameMatch nm j = false) →
      nameMatch nm i = true →
        applyMatch (pre ++ i :: post) nm q =
          pre ++ { i with quantity := some q } :: post)
  ∧ patch_yaml_with_master [hpItem] [chars "5 Health Potion"] =
      [{ hpItem with quantity := some 5 }]
  ∧ (∀ items, patchLine items (chars "Potion") = items) := by
  refine ⟨?_, ?_, ?_, ?_⟩
  · intro items nm q hall
    induction items with
    | nil => rfl
    | cons i t ih =>
      have hi : nameMatch nm i = false := hall i (by simp)
      simp only [applyMatch, hi, Bool.false_eq_true, if_false, List.cons.injEq,
        true_and]
      exact ih fun x hx => hall x (by simp [hx])
  · intro pre i post nm q hpre hi
    induction pre with
    | nil => simp [applyMatch, hi]
    | cons j t ih =>
      have hj : nameMatch nm j = false := hpre j (by simp)
      simp only [List.cons_append, applyMatch, hj, Bool.false_eq_true, if_false,
        List.cons.injEq, true_and]
      exact ih fun x hx => hpre x (by simp [hx])
  · rfl
  · intro items; rfl

/-- C6 witness: the first-match-wins scan at a concrete catalog — the
earlier non-matching item is untouched, the matching item gets the
quantity. -/
theorem c6_patch_with_master_list_witness :
    applyMatch ([badCatItem] ++ hpItem :: []) (chars "health potion") 5 =
      [badCatItem] ++ { hpItem with quantity := some 5 } :: [] :=
  c6_patch_with_master_list.2.1 [badCatItem] hpItem [] (chars "health potion") 5
    (by decide) (by decide)

/-- C5: `validate_categories` returns exactly the catalog definitions whose
category lacks the dotted separator (in particular it is empty whenever every
category contains a dot); repairing appends the `.Default` token to exactly
the invalid definitions, so each previously invalid entry's repaired category
ends with `.Default`, and validating the repaired catalog returns empty. -/
theorem c5_validate_and_repair (items : List Item) :
    (∀ i, i ∈ validate_categories items ↔
        i ∈ items ∧ ('.' : Char) ∉ i.category)
  ∧ ((∀ i ∈ items, ('.' : Char) ∈ i.category) → validate_categories items = [])
  ∧ (repair_items items).length = items.length
  ∧ (∀ i ∈ validate_categories items,
      { i with category := i.category ++ chars ".Default" } ∈ repair_items items
      ∧ chars ".Default" <:+ i.category ++ chars ".Default")
  ∧ validate_categories (repair_items items) = [] := by
  refine ⟨?_, ?_, ?_, ?_, ?_⟩
  · intro i
    simp [validate_categories, List.mem_filter]
  · intro hall
    simp only [validate_categories, List.filter_eq_nil_iff, decide_eq_true_eq]
    intro i hi
    exact fun hno => hno (hall i hi)
  · simp [repair_items]
  · intro i hi
    rw [validate_categories, List.mem_filter] at hi
    have hno : ('.' : Char) ∉ i.category := by
      simpa using hi.2
    constructor
    · exact List.mem_map.mpr ⟨i, hi.1, by simp [if_neg hno]⟩
    · exact ⟨i.category, rfl⟩
  · simp only [validate_categories, List.filter_eq_nil_iff, decide_eq_true_eq]
    intro j hj
    rcases List.mem_map.mp hj with ⟨i, _, rfl⟩
    by_cases hdot : ('.' : Char) ∈ i.category
    · intro hno
      simp only [if_pos hdot] at hno
      exact hno hdot
    · intro hno
      apply hno
      simp only [if_neg hdot]
      exact List.mem_append.mpr (Or.inr (by decide))

/-- C5 witness: on a concrete catalog with one invalid item, validation
flags exactly that item, its repaired category ends in `.Default`, and the
repaired catalog validates clean. -/
theorem c5_validate_and_repair_witness :
    validate_categories [hpItem, badCatItem] = [badCatItem]
  ∧ validate_categories (repair_items [hpItem, badCatItem]) = []
  ∧ chars ".Default" <:+ badCatItem.category ++ chars ".Default" := by
  refine ⟨by decide, (c5_validate_and_repair [hpItem, badCatItem]).2.2.2.2, ?_⟩
  exact ((c5_validate_and_repair [hpItem, badCatItem]).2.2.2.1 badCatItem
    (by decide)).2

/-- Membership in a set updated by `addSub`: the old members, plus `s` at
key `m`. -/
theorem addSub_mem (acc : Str → List Str) (m s k x : Str) :
    x ∈ addSub acc m s k ↔ x ∈ acc k ∨ (k = m ∧ x = s) := by
  unfold addSub
  by_cases hk : k = m
  · subst hk
    by_cases hs : s ∈ acc k
    · simp only [if_pos rfl, if_pos hs, true_and]
      constructor
      · exact Or.inl
      · rintro (h | rfl)
        · exact h
        · exact hs
    · simp only [if_pos rfl, if_neg hs, true_and]
      simp [List.mem_append]
  · simp [if_neg hk, hk]

/-- `addSub` keeps every per-key set duplicate-free. -/
theorem addSub_nodup (acc : Str → List Str) (m s : Str)
    (h : ∀ k, (acc k).Nodup) : ∀ k, (addSub acc m s k).Nodup := by
  intro k
  unfold addSub
  by_cases hk : k = m
  · subst hk
    by_cases hs : s ∈ acc k
    · simp only [if_pos rfl, if_pos hs]
      exact h k
    · simp only [if_pos rfl, if_neg hs]
      simp [List.nodup_append, h k, hs]
  · simp only [if_neg hk]
    exact h k

/-- Membership after the grouping fold: an element of the accumulator, or
the subcategory of some item of the remaining list whose category splits at
its first dot into the given key. -/
theorem mem_foldl_structuredStep (l : List Item) (acc : Str → List Str)
    (k x : Str) :
    x ∈ (l.foldl structuredStep acc) k ↔
      x ∈ acc k ∨
        ∃ i ∈ l, ('.' : Char) ∈ i.category ∧ splitDot1 i.category = (k, x) := by
  induction l generalizing acc with
  | nil => simp
  | cons i t ih =>
    rw [List.foldl_cons, ih]
    unfold structuredStep
    by_cases hdot : ('.' : Char) ∈ i.category
    · rw [if_pos hdot, addSub_mem]
      constructor
      · rintro ((h | ⟨rfl, rfl⟩) | ⟨j, hj, hdj, hsj⟩)
        · exact Or.inl h
        · exact Or.inr ⟨i, by simp, hdot, rfl⟩
        · exact Or.inr ⟨j, by simp [hj], hdj, hsj⟩
      · rintro (h | ⟨j, hj, hdj, hsj⟩)
        · exact Or.inl (Or.inl h)
        · rcases List.mem_cons.mp hj with rfl | hj2
          · refine Or.inl (Or.inr ⟨?_, ?_⟩)
            · exact (congrArg Prod.fst hsj).symm
            · exact (congrArg Prod.snd hsj).symm
          · exact Or.inr ⟨j, hj2, hdj, hsj⟩
    · rw [if_neg hdot]
      constructor
      · rintro (h | ⟨j, hj, hdj, hsj⟩)
        · exact Or.inl h
        · exact Or.inr ⟨j, by simp [hj], hdj, hsj⟩
      · rintro (h | ⟨j, hj, hdj, hsj⟩)
        · exact Or.inl h
        · rcases List.mem_cons.mp hj with rfl | hj2
          · exact absurd hdj hdot
          · exact Or.inr ⟨j, hj2, hdj, hsj⟩

/-- The grouping fold keeps every per-key set duplicate-free. -/
theorem nodup_foldl_structuredStep (l : List Item) (acc : Str → List Str)
    (h : ∀ k, (acc k).Nodup) : ∀ k, ((l.foldl structuredStep acc) k).Nodup := by
  induction l generalizing acc with
  | nil => exact h
  | cons i t ih =>
    rw [List.foldl_cons]
    apply ih
    unfold structuredStep
    by_cases hdot : ('.' : Char) ∈ i.category
    · rw [if_pos hdot]
      exact addSub_nodup _ _ _ h
    · rw [if_neg hdot]
      exact h

/-- C8: the derived category index is a pure function of the catalog (it is
a Lean function of `items`, so determinism is inherent); for every main
category its subcategory list is sorted ascending in the lexicographic order
on strings, contains no duplicates, and holds exactly the subcategories
(part after the first dot) of the items whose category contains the dotted
separator and whose main part (before the first dot) is that main
category. -/
theorem c8_category_index (items : List Item) (main : Str) :
    List.Sorted (· ≤ ·) (get_structured_categories items main)
  ∧ (get_structured_categories items main).Nodup
  ∧ (∀ s, s ∈ get_structured_categories items main ↔
      ∃ i ∈ items, ('.' : Char) ∈ i.category ∧
        splitDot1 i.category = (main, s)) := by
  refine ⟨List.sorted_insertionSort _ _, ?_, ?_⟩
  · rw [get_structured_categories]
    exact ((List.perm_insertionSort _ _).nodup_iff).mpr
      (nodup_foldl_structuredStep items _ (fun _ => List.nodup_nil) main)
  · intro s
    rw [get_structured_categories, List.mem_insertionSort,
      structuredSets, mem_foldl_structuredStep]
    simp

/-- `Nat.digitChar` is injective below 10. -/
theorem digitChar_inj_lt10 :
    ∀ a < 10, ∀ b < 10, Nat.digitChar a = Nat.digitChar b → a = b := by decide

/-- `pad2` is injective below 100. -/
theorem pad2_inj {a b : Nat} (ha : a < 100) (hb : b < 100)
    (h : pad2 a = pad2 b) : a = b := by
  simp only [pad2, List.cons.injEq, and_true] at h
  have d1 := digitChar_inj_lt10 (a / 10) (by omega) (b / 10) (by omega) h.1
  have d2 := digitChar_inj_lt10 (a % 10) (by omega) (b % 10) (by omega) h.2
  omega

/-- `pad4` is injective below 10000. -/
theorem pad4_inj {a b : Nat} (ha : a < 10000) (hb : b < 10000)
    (h : pad4 a = pad4 b) : a = b := by
  simp only [pad4, List.cons.injEq, and_true] at h
  have d1 := digitChar_inj_lt10 (a / 1000) (by omega) (b / 1000) (by omega) h.1
  have d2 := digitChar_inj_lt10 (a / 100 % 10) (by omega) (b / 100 % 10)
    (by omega) h.2.1
  have d3 := digitChar_inj_lt10 (a / 10 % 10) (by omega) (b / 10 % 10)
    (by omega) h.2.2.1
  have d4 := digitChar_inj_lt10 (a % 10) (by omega) (b % 10) (by omega) h.2.2.2
  omega

/-- Two distinct broken-down times (distinct at second resolution) format to
distinct timestamp strings. -/
theorem get_timestamp_inj {t1 t2 : Tm} (h1 : validTm t1) (h2 : validTm t2)
    (h : get_timestamp t1 = get_timestamp t2) : t1 = t2 := by
  unfold get_timestamp at h
  rcases List.append_inj h rfl with ⟨h, hs⟩
  rcases List.append_inj h rfl with ⟨h, hmi⟩
  rcases List.append_inj h rfl with ⟨h, hh⟩
  rcases List.append_inj h rfl with ⟨h, -⟩
  rcases List.append_inj h rfl with ⟨h, hd⟩
  rcases List.append_inj h rfl with ⟨hy, hmo⟩
  obtain ⟨c1a, c1b, c1c, c1d, c1e, c1f, c1g⟩ := h1
  obtain ⟨c2a, c2b, c2c, c2d, c2e, c2f, c2g⟩ := h2
  cases t1
  cases t2
  simp only [Tm.mk.injEq]
  exact ⟨pad4_inj c1b c2b hy, pad2_inj c1c c2c hmo, pad2_inj c1d c2d hd,
    pad2_inj c1e c2e hh, pad2_inj c1f c2f hmi, pad2_inj c1g c2g hs⟩

/-- Every timestamp string has the 15 characters of `YYYYMMDD-HHMMSS`. -/
theorem get_timestamp_length (t : Tm) : (get_timestamp t).length = 15 := by
  simp [get_timestamp, pad2, pad4]

/-- Replacing the occurrences of `".sav"` (there is at least one) with two
distinct strings of equal length yields distinct results. -/
theorem replaceDotSav_ne_aux (n : Nat) : ∀ s : Str, s.length ≤ n →
    ∀ r1 r2 : Str, occursSav s = true → r1.length = r2.length → r1 ≠ r2 →
    replaceDotSav s r1 ≠ replaceDotSav s r2 := by
  induction n with
  | zero =>
    intro s hs r1 r2 hocc _ _
    rcases s with - | ⟨c, t⟩
    · simp [occursSav] at hocc
    · simp at hs
  | succ n ih =>
    intro s hs r1 r2 hocc hlen hne
    rcases s with - | ⟨c, t⟩
    · simp [occursSav] at hocc
    · by_cases hp : (chars ".sav").isPrefixOf (c :: t) = true
      · obtain ⟨u, hu⟩ := List.isPrefixOf_iff_prefix.mp hp
        have hu2 : ('.' :: 's' :: 'a' :: 'v' :: u : Str) = c :: t := hu
        injection hu2 with hc ht
        subst hc
        subst ht
        have hstep : ∀ r : Str,
            replaceDotSav ('.' :: 's' :: 'a' :: 'v' :: u) r =
              r ++ replaceDotSav u r := by
          intro r
          rw [replaceDotSav.eq_def]
          have e : chars ".sav" = ['.', 's', 'a', 'v'] := rfl
          rw [e]
          simp [List.isPrefixOf]
        rw [hstep r1, hstep r2]
        intro heq
        exact hne (List.append_inj heq hlen).1
      · have hocc2 : occursSav t = true := by
          simp only [occursSav, Bool.or_eq_true] at hocc
          rcases hocc with h | h
          · exact absurd h hp
          · exact h
        have hlt : t.length ≤ n := by
          simp only [List.length_cons] at hs
          omega
        have hstep : ∀ r : Str,
            replaceDotSav (c :: t) r = c :: replaceDotSav t r := by
          intro r
          rw [replaceDotSav.eq_def]
          simp only [if_neg hp]
        rw [hstep r1, hstep r2]
        intro heq
        injection heq with hhd htl
        exact ih t hlt r1 r2 hocc2 hlen hne htl

/-- The distinctness lemma at the list itself. -/
theorem replaceDotSav_ne (s r1 r2 : Str) (hocc : occursSav s = true)
    (hlen : r1.length = r2.length) (hne : r1 ≠ r2) :
    replaceDotSav s r1 ≠ replaceDotSav s r2 :=
  replaceDotSav_ne_aux s.length s le_rfl r1 r2 hocc hlen hne

/-- C9: two backup operations on the same source file whose second-resolution
timestamps (format `YYYYMMDD-HHMMSS`) differ produce distinct backup file
names of the form `stem_BACKUP-timestamp.ext`, so neither overwrites the
other; and every backup operation (here the `load_sav` one) creates the
backup directory first when it is absent (`os.makedirs(..., exist_ok=True)`
precedes the copy on every path). -/
theorem c9_backup_naming (t1 t2 : Tm) (base : Str)
    (h1 : validTm t1) (h2 : validTm t2) (hne : t1 ≠ t2)
    (hocc : occursSav base = true) :
    backup_sav_name base (get_timestamp t1) ≠
      backup_sav_name base (get_timestamp t2)
  ∧ (∀ p now conv fs,
      ((load_sav (some p) now conv fs).2).dirs (chars "Save_Backup") = true) := by
  constructor
  · unfold backup_sav_name joinBackup
    have hr : chars "_BACKUP-" ++ get_timestamp t1 ++ chars ".sav" ≠
        chars "_BACKUP-" ++ get_timestamp t2 ++ chars ".sav" := by
      intro he
      have he1 := List.append_cancel_right he
      have he2 := List.append_cancel_left he1
      exact hne (get_timestamp_inj h1 h2 he2)
    have hlen : (chars "_BACKUP-" ++ get_timestamp t1 ++ chars ".sav").length =
        (chars "_BACKUP-" ++ get_timestamp t2 ++ chars ".sav").length := by
      simp [List.length_append, get_timestamp_length]
    intro h
    exact replaceDotSav_ne base _ _ hocc hlen hr (List.append_cancel_left h)
  · intro p now conv fs
    rw [load_sav.eq_def]
    dsimp only
    cases hf : (fs.mkdirP (chars "Save_Backup")).files p with
    | none => simp [FS.mkdirP]
    | some content =>
      cases conv with
      | notFound => simp [FS.write, FS.mkdirP]
      | runs r outW =>
        cases outW with
        | none =>
          simp only [FS.write, FS.mkdirP]
          split <;> simp
        | some fd0 =>
          simp only [FS.write, FS.mkdirP]
          split <;> simp

/-- C9 witness: the concrete times `tmA` and `tmB`, two seconds apart, name
distinct backups of `save.sav`, and a concrete `load_sav` call creates the
backup directory in an empty file system. -/
theorem c9_backup_naming_witness :
    backup_sav_name (chars "save.sav") (get_timestamp tmA) ≠
      backup_sav_name (chars "save.sav") (get_timestamp tmB)
  ∧ ((load_sav (some (chars "save.sav")) (get_timestamp tmA) ConvProc.notFound
        fsEmpty).2).dirs (chars "Save_Backup") = true := by
  have h := c9_backup_naming tmA tmB (chars "save.sav") (by decide) (by decide)
    (by decide) (by decide)
  exact ⟨h.1,
    h.2 (chars "save.sav") (get_timestamp tmA) ConvProc.notFound fsEmpty⟩

/-- C1 (evaluation of the defect at a failing input): committing a loaded
document with one inventory property does NOT write the edited entry list
back into it — source line 535, `v["Map"] = self.loaded_jsontimestamp =
get_timestamp()`, assigns the timestamp string to the property's `Map`
payload, and line 537 then raises `NameError` on the unbound name
`timestamp`, so the updated document is never written to the document file
(no backup file appears either; only the in-memory state was clobbered and
the edit to the entry index applied). -/
theorem c1_commit_broadcast_defect :
    saveOutEx.result = SaveResult.crashNameError
  ∧ saveOutEx.fullJson =
      ⟨[(chars "InventoryItems_0", PropVal.mapDict (JPayload.strVal tsEx)),
        (chars "SaveSlotName_0", PropVal.other)]⟩
  ∧ saveOutEx.loadedJson = [⟨chars "Gold", 7⟩]
  ∧ saveOutEx.fs.files (chars "save.json") = some (FileData.jsonDoc docEx)
  ∧ saveOutEx.fs.files
      (chars "Save_Backup/save_BACKUP-20260101-000000.json") = none := by
  refine ⟨?_, ?_, ?_, ?_, ?_⟩ <;> decide

/-- C7: the live document file is never overwritten unless a backup of it
was successfully created first.  In the code as written this holds in the
strongest form: `save_json` always aborts (the merged line 535 leaves the
name `timestamp` unbound, so line 537 raises `NameError`) before the backup
copy and before the document write, so a commit changes no file contents at
all — in particular a failed backup can never be followed by an overwrite,
which is what the claim requires. -/
theorem c7_no_overwrite_without_backup (currentJsonPath : Option Str)
    (fullJson : Doc) (loadedJson : List Entry) (inputVars : List (Str × Str))
    (now : Str) (fs : FS) (p : Str) :
    ((save_json currentJsonPath fullJson loadedJson inputVars now
        fs).fs).files p = fs.files p := by
  rw [save_json.eq_def]
  rcases currentJsonPath with - | q
  · rfl
  · dsimp only
    rcases happ : apply_edits inputVars loadedJson with ⟨lj, o⟩
    rcases o with - | e
    · rfl
    · rfl

end EX33
